import Mathlib

/-!
Shallow embedding of the celestia-node-stateless inspection tool
(src/cmd/celestia/main.go and the near-duplicate src/unnamed/part_000).

The program fetches a block from a node over a streaming RPC, reassembles
it from wire-level parts, optionally extends its transaction data into an
erasure-coded square and builds a data availability header.  Functions
that live in src/ are translated directly; external collaborators
(the tendermint part set, the decoders, the Reed-Solomon codec, the
namespaced-Merkle-tree root builder, the dial and stream primitives) are
not part of this repository and are either modelled from the spec or kept
as explicit function parameters, mirroring the call structure of src/.
-/

/-- Raw bytes are modelled as lists of naturals. -/
abbrev Bytes := List Nat

/-- A share is a fixed-size byte sequence (section 3 of the spec). -/
abbrev ShareB := Bytes

/-- Error kinds, named after section 7 of the spec plus the two
square-construction failures visible in the code. -/
inductive Err where
  | connectionError
  | streamTruncated
  | malformedFirstFragment
  | decodeError
  | invalidHeightArgument
  | squareTooLarge
  | invalidSquareSize
  | notSquareNumber
  | dahFailure
  | outOfRange
  deriving DecidableEq, Repr

/-- A wire part: tmproto.WirePart carries a declared index and the payload
bytes (src/cmd/celestia/main.go, partsToBlock). -/
structure WirePart where
  index : Nat
  bytes : Bytes
  deriving DecidableEq, Repr

/-- Opaque protobuf payloads and their decoded forms; only their identity
matters to the embedding, so they are naturals. -/
abbrev CommitPB := Nat

/-- Opaque validator-set protobuf payload. -/
abbrev ValSetPB := Nat

/-- Decoded commit (types.CommitFromProto output), kept opaque. -/
abbrev Commit := Nat

/-- Decoded validator set (types.ValidatorSetFromProto output), opaque. -/
abbrev ValSet := Nat

/-- One response of the BlockByHeight stream: commit and validator-set
payloads (read only from the first fragment), the block part and the
is-last flag (src/cmd/celestia/main.go, receiveBlockByHeight). -/
structure Resp where
  commit : CommitPB
  validatorSet : ValSetPB
  blockPart : WirePart
  isLast : Bool
  deriving DecidableEq, Repr

/-- Block header; the only field the program reads is Version.App. -/
structure Header where
  versionApp : Nat
  deriving DecidableEq, Repr

/-- Transaction data of a block: an ordered list of opaque byte
transactions. -/
structure BlockData where
  txs : List Bytes
  deriving DecidableEq, Repr

/-- A deserialized block: header plus transaction data
(types.BlockFromProto output, restricted to the fields the tool uses). -/
structure Block where
  header : Header
  data : BlockData
  deriving DecidableEq, Repr

/-- SignedBlock from src/cmd/celestia/main.go. -/
structure SignedBlock where
  header : Header
  commit : Commit
  data : BlockData
  validatorSet : ValSet
  deriving DecidableEq, Repr

/-- Modelled from the spec: the tendermint PartSet used by partsToBlock is
not part of this repository.  Per section 4.1 the reassembler
"concatenates fragment payloads, in receipt order, into a single buffer"
and "does not reorder fragments by their declared index", so the part set
is modelled as a buffer of chunks to which AddPartWithoutProof appends
each part in call order and whose reader yields the concatenation. -/
structure PartSetBuf where
  chunks : List Bytes
  deriving DecidableEq, Repr

/-- Modelled from the spec: AddPartWithoutProof appends the part bytes in
receipt order; in this model it always succeeds. -/
def PartSetBuf.addPartWithoutProof (ps : PartSetBuf) (p : WirePart) : Bool × PartSetBuf :=
  (true, ⟨ps.chunks ++ [p.bytes]⟩)

/-- Modelled from the spec: GetReader yields the concatenated buffer. -/
def PartSetBuf.reader (ps : PartSetBuf) : Bytes :=
  ps.chunks.flatten

/-- partsToBlock from src/cmd/celestia/main.go: adds every part to a part
set and feeds the concatenated buffer through the structural block
deserializer (proto.Unmarshal followed by types.BlockFromProto, passed
here as the function parameter db since they are external). -/
def partsToBlock (db : Bytes → Except Err Block) (parts : List WirePart) : Except Err Block :=
  let ps := parts.foldl (fun (ps : PartSetBuf) p => (ps.addPartWithoutProof p).2) ⟨[]⟩
  db ps.reader

/-- The receive loop of receiveBlockByHeight: while the last fragment has
not been seen, read the next response and append its block part; when the
stream is exhausted first, fail with the truncation error (Recv returning
io.EOF or any other stream error).  The second component counts the
fragments read. -/
def receiveLoop : Bool → List WirePart → List Resp → Except Err (List WirePart) × Nat
  | true, parts, _ => (.ok parts, 0)
  | false, _, [] => (.error .streamTruncated, 0)
  | false, parts, r :: rest =>
      let p := receiveLoop r.isLast (parts ++ [r.blockPart]) rest
      (p.1, p.2 + 1)

/-- receiveBlockByHeight from src/cmd/celestia/main.go.  The stream is the
list of responses still to be delivered; reading past its end is the
stream ending (error or EOF).  The commit, validator-set and block
decoders are the external tendermint routines, passed as parameters.
Returns the result together with the number of fragments read. -/
def receiveBlockByHeight (dc : CommitPB → Except Err Commit)
    (dv : ValSetPB → Except Err ValSet) (db : Bytes → Except Err Block)
    (stream : List Resp) : Except Err SignedBlock × Nat :=
  match stream with
  | [] => (.error .streamTruncated, 0)
  | first :: rest =>
    match dc first.commit with
    | .error e => (.error e, 1)
    | .ok commit =>
      match dv first.validatorSet with
      | .error e => (.error e, 1)
      | .ok validatorSet =>
        let lp := receiveLoop first.isLast [first.blockPart] rest
        match lp.1 with
        | .error e => (.error e, 1 + lp.2)
        | .ok parts =>
          match partsToBlock db parts with
          | .error e => (.error e, 1 + lp.2)
          | .ok block =>
            (.ok ⟨block.header, commit, block.data, validatorSet⟩, 1 + lp.2)

/-- The parts a stream delivers, in delivery order, up to and including
the first fragment marked last; none when no fragment is marked last. -/
def deliveredParts : List Resp → Option (List WirePart)
  | [] => none
  | r :: rest =>
    if r.isLast then some [r.blockPart]
    else (deliveredParts rest).map (r.blockPart :: ·)

/-- Erase the declared index of a part, keeping its bytes. -/
def stripPart (p : WirePart) : WirePart := ⟨0, p.bytes⟩

/-- Erase the declared part index of a response. -/
def stripResp (r : Resp) : Resp := ⟨r.commit, r.validatorSet, stripPart r.blockPart, r.isLast⟩

/-- The part-set fold accumulates exactly the part payloads, in receipt
order, after the initial chunks. -/
theorem partsFold_chunks (parts : List WirePart) (ps : PartSetBuf) :
    (parts.foldl (fun (ps : PartSetBuf) p => (ps.addPartWithoutProof p).2) ps).chunks
      = ps.chunks ++ parts.map WirePart.bytes := by
  induction parts generalizing ps with
  | nil => simp
  | cons p rest ih =>
    rw [List.foldl_cons, ih]
    simp [PartSetBuf.addPartWithoutProof]

/-- partsToBlock feeds the deserializer the receipt-order concatenation of
the part payloads. -/
theorem partsToBlock_eq_flatten (db : Bytes → Except Err Block) (parts : List WirePart) :
    partsToBlock db parts = db ((parts.map WirePart.bytes).flatten) := by
  simp [partsToBlock, PartSetBuf.reader, partsFold_chunks]

/-- When a stream delivers a last-marked fragment, the receive loop
collects the accumulator followed by the delivered parts. -/
theorem receiveLoop_delivered (stream : List Resp) :
    ∀ (acc : List WirePart) (qs : List WirePart), deliveredParts stream = some qs →
      (receiveLoop false acc stream).1 = .ok (acc ++ qs) := by
  induction stream with
  | nil => intro acc qs h; simp [deliveredParts] at h
  | cons r rest ih =>
    intro acc qs h
    by_cases hl : r.isLast
    · simp [deliveredParts, hl] at h
      simp [receiveLoop, hl, ← h]
    · simp [deliveredParts, hl] at h
      obtain ⟨qs2, hqs2, rfl⟩ := h
      simp [receiveLoop, hl, ih (acc ++ [r.blockPart]) qs2 hqs2]

/-- When no fragment of the remaining stream is marked last, the receive
loop runs off the end of the stream and reports truncation. -/
theorem receiveLoop_noLast (stream : List Resp) :
    ∀ acc : List WirePart, (∀ r ∈ stream, r.isLast = false) →
      (receiveLoop false acc stream).1 = .error .streamTruncated := by
  induction stream with
  | nil => intro acc _; rfl
  | cons r rest ih =>
    intro acc h
    have hr : r.isLast = false := h r (by simp)
    have hrest : ∀ x ∈ rest, x.isLast = false := fun x hx => h x (by simp [hx])
    simp [receiveLoop, hr, ih (acc ++ [r.blockPart]) hrest]

/-- The receive loop never consults the declared part indices: running it
on an index-erased stream yields the index-erased result. -/
theorem receiveLoop_strip (stream : List Resp) :
    ∀ (l : Bool) (acc : List WirePart),
      receiveLoop l (acc.map stripPart) (stream.map stripResp)
        = ((receiveLoop l acc stream).1.map (List.map stripPart),
           (receiveLoop l acc stream).2) := by
  induction stream with
  | nil => intro l acc; cases l <;> simp [receiveLoop, Except.map]
  | cons r rest ih =>
    intro l acc
    cases l with
    | true => simp [receiveLoop, Except.map]
    | false =>
      have hacc : acc.map stripPart ++ [stripPart r.blockPart]
          = (acc ++ [r.blockPart]).map stripPart := by simp
      show ((receiveLoop r.isLast (acc.map stripPart ++ [stripPart r.blockPart])
              (rest.map stripResp)).1,
            (receiveLoop r.isLast (acc.map stripPart ++ [stripPart r.blockPart])
              (rest.map stripResp)).2 + 1)
          = ((receiveLoop r.isLast (acc ++ [r.blockPart]) rest).1.map (List.map stripPart),
             (receiveLoop r.isLast (acc ++ [r.blockPart]) rest).2 + 1)
      rw [hacc, ih r.isLast (acc ++ [r.blockPart])]

/-- Erasing the index preserves the payload bytes. -/
theorem stripPart_bytes (p : WirePart) : (stripPart p).bytes = p.bytes := rfl

/-- partsToBlock depends only on the payload bytes, never on the declared
indices. -/
theorem partsToBlock_strip (db : Bytes → Except Err Block) (parts : List WirePart) :
    partsToBlock db (parts.map stripPart) = partsToBlock db parts := by
  simp [partsToBlock_eq_flatten, List.map_map]
  have : WirePart.bytes ∘ stripPart = WirePart.bytes := by
    funext p; rfl
  rw [this]

/-- receiveBlockByHeight is invariant under erasing declared part indices
from the stream. -/
theorem receiveBlockByHeight_strip (dc : CommitPB → Except Err Commit)
    (dv : ValSetPB → Except Err ValSet) (db : Bytes → Except Err Block)
    (stream : List Resp) :
    receiveBlockByHeight dc dv db (stream.map stripResp)
      = receiveBlockByHeight dc dv db stream := by
  cases stream with
  | nil => rfl
  | cons first rest =>
    have hloop := receiveLoop_strip rest first.isLast [first.blockPart]
    cases hdc : dc first.commit with
    | error e => simp [receiveBlockByHeight, stripResp, hdc]
    | ok commit =>
      cases hdv : dv first.validatorSet with
      | error e => simp [receiveBlockByHeight, stripResp, hdc, hdv]
      | ok vs =>
        cases hlp : (receiveLoop first.isLast [first.blockPart] rest).1 with
        | error e =>
          simp [receiveBlockByHeight, stripResp, hdc, hdv]
          rw [show [stripPart first.blockPart] = [first.blockPart].map stripPart from rfl,
            hloop, hlp]
          simp [Except.map]
        | ok parts =>
          simp [receiveBlockByHeight, stripResp, hdc, hdv]
          rw [show [stripPart first.blockPart] = [first.blockPart].map stripPart from rfl,
            hloop, hlp]
          simp [Except.map, partsToBlock_strip]

/-- Claim C1.  For every stream the reassembler consumes, the buffer
handed to the structural deserializer is the concatenation of the
fragment payloads in the order they were received, and the result never
depends on the declared part indices: two streams that agree except for
those indices (in particular, a permuted delivery treated as the true
order) reassemble identically. -/
theorem receiveBuffer_receiptOrder_and_indexIgnored
    (dc : CommitPB → Except Err Commit) (dv : ValSetPB → Except Err ValSet)
    (db : Bytes → Except Err Block) (first : Resp) (rest : List Resp)
    (ps : List WirePart) (commit : Commit) (vs : ValSet)
    (hps : deliveredParts (first :: rest) = some ps)
    (hdc : dc first.commit = .ok commit)
    (hdv : dv first.validatorSet = .ok vs) :
    (receiveBlockByHeight dc dv db (first :: rest)).1
      = (db ((ps.map WirePart.bytes).flatten)).map
          (fun b => ⟨b.header, commit, b.data, vs⟩) ∧
    ∀ s1 s2 : List Resp, s1.map stripResp = s2.map stripResp →
      receiveBlockByHeight dc dv db s1 = receiveBlockByHeight dc dv db s2 := by
  constructor
  · have hlp : (receiveLoop first.isLast [first.blockPart] rest).1 = .ok ps := by
      by_cases hl : first.isLast
      · simp [deliveredParts, hl] at hps
        simp [receiveLoop, hl, ← hps]
      · simp [deliveredParts, hl] at hps
        obtain ⟨qs, hqs, rfl⟩ := hps
        simp [hl] at hqs ⊢
        exact receiveLoop_delivered rest [first.blockPart] qs hqs
    have hbuf := partsToBlock_eq_flatten db ps
    cases hdb : db ((ps.map WirePart.bytes).flatten) with
    | error e => simp [receiveBlockByHeight, hdc, hdv, hlp, hbuf, hdb, Except.map]
    | ok block => simp [receiveBlockByHeight, hdc, hdv, hlp, hbuf, hdb, Except.map]
  · intro s1 s2 h
    rw [← receiveBlockByHeight_strip dc dv db s1, h, receiveBlockByHeight_strip]

/-- Commit decoder used in witnesses: always succeeds, returns the
payload. -/
def okCommitDecoder : CommitPB → Except Err Commit := fun n => .ok n

/-- Validator-set decoder used in witnesses: always succeeds. -/
def okValsetDecoder : ValSetPB → Except Err ValSet := fun n => .ok n

/-- Block deserializer used in witnesses: succeeds and records the buffer
it was given as the single transaction of the block. -/
def recordingBlockDecoder : Bytes → Except Err Block := fun bz => .ok ⟨⟨3⟩, ⟨[bz]⟩⟩

/-- Commit decoder used in witnesses: always fails structurally. -/
def failCommitDecoder : CommitPB → Except Err Commit := fun _ => .error .malformedFirstFragment

/-- Witness for C1 at a two-fragment stream whose declared indices are
permuted (1 then 0): the deserializer still receives the delivery-order
concatenation of the payloads. -/
theorem receiveBuffer_receiptOrder_witness :
    deliveredParts [⟨7, 9, ⟨1, [10, 11]⟩, false⟩, ⟨7, 9, ⟨0, [20]⟩, true⟩]
        = some [⟨1, [10, 11]⟩, ⟨0, [20]⟩] ∧
    okCommitDecoder 7 = .ok 7 ∧
    okValsetDecoder 9 = .ok 9 ∧
    (receiveBlockByHeight okCommitDecoder okValsetDecoder recordingBlockDecoder
        [⟨7, 9, ⟨1, [10, 11]⟩, false⟩, ⟨7, 9, ⟨0, [20]⟩, true⟩]).1
      = (recordingBlockDecoder
          (([⟨1, [10, 11]⟩, ⟨0, [20]⟩].map WirePart.bytes).flatten)).map
            (fun b => ⟨b.header, 7, b.data, 9⟩) :=
  ⟨by decide, rfl, rfl,
    (receiveBuffer_receiptOrder_and_indexIgnored okCommitDecoder okValsetDecoder
      recordingBlockDecoder ⟨7, 9, ⟨1, [10, 11]⟩, false⟩ [⟨7, 9, ⟨0, [20]⟩, true⟩]
      [⟨1, [10, 11]⟩, ⟨0, [20]⟩] 7 9 (by decide) rfl rfl).1⟩

/-- Claim C4.  A stream that ends (error or EOF) before any fragment is
marked last makes receiveBlockByHeight return an error; no signed block
is ever produced from the partial data. -/
theorem truncatedStream_yieldsError (dc : CommitPB → Except Err Commit)
    (dv : ValSetPB → Except Err ValSet) (db : Bytes → Except Err Block)
    (stream : List Resp) (h : ∀ r ∈ stream, r.isLast = false) :
    ∃ e, (receiveBlockByHeight dc dv db stream).1 = .error e := by
  cases stream with
  | nil => exact ⟨.streamTruncated, rfl⟩
  | cons first rest =>
    have hfl : first.isLast = false := h first (by simp)
    have hrest : ∀ r ∈ rest, r.isLast = false := fun r hr => h r (by simp [hr])
    cases hdc : dc first.commit with
    | error e => exact ⟨e, by simp [receiveBlockByHeight, hdc]⟩
    | ok commit =>
      cases hdv : dv first.validatorSet with
      | error e => exact ⟨e, by simp [receiveBlockByHeight, hdc, hdv]⟩
      | ok vs =>
        have hloop := receiveLoop_noLast rest [first.blockPart] hrest
        exact ⟨.streamTruncated, by simp [receiveBlockByHeight, hdc, hdv, hfl, hloop]⟩

/-- Witness for C4: a stream delivering two of three expected fragments,
none marked last, yields an error. -/
theorem truncatedStream_yieldsError_witness :
    (∀ r ∈ [(⟨7, 9, ⟨0, [1]⟩, false⟩ : Resp), ⟨7, 9, ⟨1, [2]⟩, false⟩], r.isLast = false) ∧
    ∃ e, (receiveBlockByHeight okCommitDecoder okValsetDecoder recordingBlockDecoder
        [⟨7, 9, ⟨0, [1]⟩, false⟩, ⟨7, 9, ⟨1, [2]⟩, false⟩]).1 = .error e :=
  ⟨by decide,
    truncatedStream_yieldsError okCommitDecoder okValsetDecoder recordingBlockDecoder
      [⟨7, 9, ⟨0, [1]⟩, false⟩, ⟨7, 9, ⟨1, [2]⟩, false⟩] (by decide)⟩

/-- Claim C8.  When the first fragment of the stream carries a commit or
validator-set payload that fails structural decoding,
receiveBlockByHeight returns an error having read only that single
fragment, and no signed block is produced. -/
theorem malformedFirstFragment_failsEarly (dc : CommitPB → Except Err Commit)
    (dv : ValSetPB → Except Err ValSet) (db : Bytes → Except Err Block)
    (first : Resp) (rest : List Resp)
    (h : (∃ e, dc first.commit = .error e) ∨ (∃ e, dv first.validatorSet = .error e)) :
    (∃ e, (receiveBlockByHeight dc dv db (first :: rest)).1 = .error e) ∧
    (receiveBlockByHeight dc dv db (first :: rest)).2 = 1 := by
  cases hdc : dc first.commit with
  | error e =>
    exact ⟨⟨e, by simp [receiveBlockByHeight, hdc]⟩, by simp [receiveBlockByHeight, hdc]⟩
  | ok commit =>
    have hv : ∃ e, dv first.validatorSet = .error e := by
      rcases h with ⟨e, he⟩ | hv
      · rw [hdc] at he; cases he
      · exact hv
    obtain ⟨e, hdv⟩ := hv
    exact ⟨⟨e, by simp [receiveBlockByHeight, hdc, hdv]⟩,
      by simp [receiveBlockByHeight, hdc, hdv]⟩

/-- Witness for C8: a failing commit decoder on a stream of two fragments
stops after the first fragment with an error. -/
theorem malformedFirstFragment_failsEarly_witness :
    (∃ e, failCommitDecoder 7 = .error e) ∧
    (∃ e, (receiveBlockByHeight failCommitDecoder okValsetDecoder recordingBlockDecoder
        [⟨7, 9, ⟨0, [1]⟩, false⟩, ⟨7, 9, ⟨1, [2]⟩, true⟩]).1 = .error e) ∧
    (receiveBlockByHeight failCommitDecoder okValsetDecoder recordingBlockDecoder
        [⟨7, 9, ⟨0, [1]⟩, false⟩, ⟨7, 9, ⟨1, [2]⟩, true⟩]).2 = 1 :=
  ⟨⟨.malformedFirstFragment, rfl⟩,
    (malformedFirstFragment_failsEarly failCommitDecoder okValsetDecoder
      recordingBlockDecoder ⟨7, 9, ⟨0, [1]⟩, false⟩ [⟨7, 9, ⟨1, [2]⟩, true⟩]
      (Or.inl ⟨.malformedFirstFragment, rfl⟩)).1,
    (malformedFirstFragment_failsEarly failCommitDecoder okValsetDecoder
      recordingBlockDecoder ⟨7, 9, ⟨0, [1]⟩, false⟩ [⟨7, 9, ⟨1, [2]⟩, true⟩]
      (Or.inl ⟨.malformedFirstFragment, rfl⟩)).2⟩

/-- Modelled from the spec: IsPowerOfTwo of the external square library
(go-square), used by extendShares to validate the flat share count. -/
def isPowerOfTwo (n : Nat) : Bool := n == 2 ^ n.log2

/-- The modelled power-of-two test agrees with the mathematical one. -/
theorem isPowerOfTwo_iff (n : Nat) : isPowerOfTwo n = true ↔ ∃ m, n = 2 ^ m := by
  constructor
  · intro h
    exact ⟨n.log2, by simpa [isPowerOfTwo] using h⟩
  · rintro ⟨m, rfl⟩
    simp [isPowerOfTwo, Nat.log2_eq_log_two, Nat.log_pow (by norm_num : 1 < 2)]

/-- Row-major arrangement of a flat share list into a k by k grid
(how the external coder views the flat input square). -/
def chunkSquare (k : Nat) (s : List ShareB) : List (List ShareB) :=
  (List.range k).map (fun i => (List.range k).map (fun j => s.getD (i * k + j) []))

/-- Column j of a grid of shares. -/
def colShares (rows : List (List ShareB)) (j : Nat) : List ShareB :=
  rows.map (fun row => row.getD j [])

/-- Modelled from the spec: the two-dimensional systematic extension of
rsmt2d (section 4.3) — every original row is extended to the right with
parity shares computed by the codec, then every column of the resulting
k by 2k grid is extended downward, yielding a 2k by 2k square whose
top-left quadrant holds the original data verbatim.  The Reed-Solomon
codec itself is an external collaborator, passed as a function from a
row of shares to its parity shares. -/
def extendSquare (codec : List ShareB → List ShareB) (k : Nat)
    (orig : List (List ShareB)) : List (List ShareB) :=
  let top := orig.map (fun row => row ++ codec row)
  let bottom := (List.range k).map (fun i =>
    (List.range (2 * k)).map (fun j => (codec (colShares top j)).getD i []))
  top ++ bottom

/-- An extended data square: the grid of shares. -/
structure EDS where
  rows : List (List ShareB)
  deriving DecidableEq, Repr

/-- Side length of the extended square. -/
def EDS.width (e : EDS) : Nat := e.rows.length

/-- Modelled from the spec: GetCell of rsmt2d is "a pure, side-effect-free
accessor" that "fails with OutOfRange for indices at or beyond 2k"
(section 4.3); for in-range indices it returns the stored share. -/
def EDS.getCell (e : EDS) (r c : Nat) : Except Err ShareB :=
  match e.rows[r]? with
  | none => .error .outOfRange
  | some row =>
    match row[c]? with
    | none => .error .outOfRange
    | some sh => .ok sh

/-- Modelled from the spec: rsmt2d.ComputeExtendedDataSquare — the flat
share count must form a perfect square, which is then extended. -/
def computeExtendedDataSquare (codec : List ShareB → List ShareB)
    (s : List ShareB) : Except Err EDS :=
  let k := Nat.sqrt s.length
  if k * k == s.length then .ok ⟨extendSquare codec k (chunkSquare k s)⟩
  else .error .notSquareNumber

/-- extendShares from src/cmd/celestia/main.go: reject a share count that
is not a power of two, otherwise hand the shares to the external coder.
The nmt tree constructor built from the square size is used only for
later root computation and plays no role in the square itself. -/
def extendShares (codec : List ShareB → List ShareB) (s : List ShareB) : Except Err EDS :=
  if isPowerOfTwo s.length then computeExtendedDataSquare codec s
  else .error .invalidSquareSize

/-- The chunked grid has k rows. -/
theorem chunkSquare_length (k : Nat) (s : List ShareB) : (chunkSquare k s).length = k := by
  simp [chunkSquare]

/-- Every row of the chunked grid has k entries. -/
theorem chunkSquare_row_length (k : Nat) (s : List ShareB) :
    ∀ row ∈ chunkSquare k s, row.length = k := by
  intro row hrow
  simp [chunkSquare] at hrow
  obtain ⟨i, _, rfl⟩ := hrow
  simp

/-- The extension of a k-row grid has 2k rows. -/
theorem extendSquare_length (codec : List ShareB → List ShareB) (k : Nat)
    (orig : List (List ShareB)) (h : orig.length = k) :
    (extendSquare codec k orig).length = 2 * k := by
  simp [extendSquare, h]
  omega

/-- Every row of the extension has 2k entries, provided the codec doubles
row lengths (k parity shares for k data shares). -/
theorem extendSquare_row_length (codec : List ShareB → List ShareB) (k : Nat)
    (orig : List (List ShareB)) (hc : ∀ row, (codec row).length = row.length)
    (h : ∀ row ∈ orig, row.length = k) :
    ∀ row ∈ extendSquare codec k orig, row.length = 2 * k := by
  intro row hrow
  simp [extendSquare] at hrow
  rcases hrow with ⟨r0, hr0, rfl⟩ | ⟨i, _, rfl⟩
  · simp [hc r0, h r0 hr0]
    omega
  · simp

/-- Inversion of a successful extendShares call: the share count passed
both checks and the rows are the extension of the chunked grid. -/
theorem extendShares_ok_elim (codec : List ShareB → List ShareB) (s : List ShareB)
    (eds : EDS) (hok : extendShares codec s = .ok eds) :
    isPowerOfTwo s.length = true ∧
    Nat.sqrt s.length * Nat.sqrt s.length = s.length ∧
    eds.rows = extendSquare codec (Nat.sqrt s.length) (chunkSquare (Nat.sqrt s.length) s) := by
  by_cases hp : isPowerOfTwo s.length = true
  · rw [extendShares, if_pos hp] at hok
    unfold computeExtendedDataSquare at hok
    by_cases hsq : Nat.sqrt s.length * Nat.sqrt s.length = s.length
    · refine ⟨hp, hsq, ?_⟩
      simp only [hsq, beq_self_eq_true, if_true] at hok
      cases hok
      rfl
    · rw [if_neg (by simpa using hsq)] at hok
      cases hok
  · rw [extendShares, if_neg hp] at hok
    cases hok

/-- Top-half row access in the extended square: row i, for i below the
original row count, is the original row followed by its parity shares. -/
theorem extendSquare_getElem_top (codec : List ShareB → List ShareB) (k : Nat)
    (orig : List (List ShareB)) (i : Nat) (hi : i < orig.length) :
    (extendSquare codec k orig)[i]? = (orig[i]?).map (fun row => row ++ codec row) := by
  have h1 : i < (orig.map (fun row => row ++ codec row)).length := by simpa using hi
  simp only [extendSquare]
  rw [List.getElem?_append_left h1, List.getElem?_map]

/-- Row i of the chunked grid, for i below k. -/
theorem chunkSquare_getElem (k : Nat) (s : List ShareB) (i : Nat) (hi : i < k) :
    (chunkSquare k s)[i]? = some ((List.range k).map (fun j => s.getD (i * k + j) [])) := by
  simp only [chunkSquare]
  rw [List.getElem?_map, List.getElem?_range hi]
  rfl

/-- Cell access through a known row. -/
theorem EDS.getCell_some {e : EDS} {r : Nat} {row : List ShareB}
    (h : e.rows[r]? = some row) (c : Nat) :
    e.getCell r c
      = match row[c]? with
        | none => .error .outOfRange
        | some sh => .ok sh := by
  unfold EDS.getCell
  rw [h]

/-- Claim C6.  The extension is systematic: on a successfully extended
flat share list, every cell of the top-left k by k quadrant is exactly
the original share at the corresponding flat row-major coordinate. -/
theorem extendShares_systematic (codec : List ShareB → List ShareB) (s : List ShareB)
    (eds : EDS) (hok : extendShares codec s = .ok eds) :
    ∀ i j, i < Nat.sqrt s.length → j < Nat.sqrt s.length →
      eds.getCell i j = .ok (s.getD (i * Nat.sqrt s.length + j) []) := by
  obtain ⟨hp, hsq, hrows⟩ := extendShares_ok_elim codec s eds hok
  intro i j hi hj
  have hi2 : i < (chunkSquare (Nat.sqrt s.length) s).length := by
    rw [chunkSquare_length]; exact hi
  have hrow := extendSquare_getElem_top codec (Nat.sqrt s.length)
    (chunkSquare (Nat.sqrt s.length) s) i hi2
  rw [chunkSquare_getElem (Nat.sqrt s.length) s i hi] at hrow
  simp only [Option.map_some'] at hrow
  have hj2 : j < ((List.range (Nat.sqrt s.length)).map
      (fun j2 => s.getD (i * Nat.sqrt s.length + j2) [])).length := by
    simpa using hj
  have hcell := EDS.getCell_some (show eds.rows[i]? = some _ by rw [hrows]; exact hrow) j
  rw [hcell, List.getElem?_append_left hj2, List.getElem?_map, List.getElem?_range hj]
  rfl

/-- Claim C3.  A successfully extended square has side length twice the
original: cell access at any row or column index at or beyond 2k yields
the OutOfRange error (never a panic, never a share), and every in-range
cell access yields a share. -/
theorem extendShares_getCell_bounds (codec : List ShareB → List ShareB) (s : List ShareB)
    (eds : EDS) (hcodec : ∀ row, (codec row).length = row.length)
    (hok : extendShares codec s = .ok eds) :
    eds.width = 2 * Nat.sqrt s.length ∧
    (∀ r c, 2 * Nat.sqrt s.length ≤ r ∨ 2 * Nat.sqrt s.length ≤ c →
      eds.getCell r c = .error .outOfRange) ∧
    (∀ r c, r < 2 * Nat.sqrt s.length → c < 2 * Nat.sqrt s.length →
      ∃ sh, eds.getCell r c = .ok sh) := by
  obtain ⟨hp, hsq, hrows⟩ := extendShares_ok_elim codec s eds hok
  have hlen : eds.rows.length = 2 * Nat.sqrt s.length := by
    rw [hrows]
    exact extendSquare_length codec _ _ (chunkSquare_length _ s)
  have hrl : ∀ row ∈ eds.rows, row.length = 2 * Nat.sqrt s.length := by
    rw [hrows]
    exact extendSquare_row_length codec _ _ hcodec (chunkSquare_row_length _ s)
  refine ⟨hlen, ?_, ?_⟩
  · intro r c h
    by_cases hr : r < eds.rows.length
    · have hcc : 2 * Nat.sqrt s.length ≤ c := by
        rcases h with h | h
        · omega
        · exact h
      have hmem : eds.rows[r] ∈ eds.rows := List.getElem_mem hr
      have hclen : eds.rows[r].length ≤ c := by rw [hrl _ hmem]; exact hcc
      simp [EDS.getCell, List.getElem?_eq_getElem hr, List.getElem?_eq_none hclen]
    · have hge : eds.rows.length ≤ r := by omega
      simp [EDS.getCell, List.getElem?_eq_none hge]
  · intro r c hr hc2
    have hr2 : r < eds.rows.length := by omega
    have hmem : eds.rows[r] ∈ eds.rows := List.getElem_mem hr2
    have hc3 : c < eds.rows[r].length := by rw [hrl _ hmem]; exact hc2
    exact ⟨eds.rows[r][c],
      by simp [EDS.getCell, List.getElem?_eq_getElem hr2, List.getElem?_eq_getElem hc3]⟩

/-- Claim C5.  extendShares fails with InvalidSquareSize exactly when the
share count is not a power of two; when it is, the call proceeds into the
external square computation. -/
theorem extendShares_invalidSquareSize_iff (codec : List ShareB → List ShareB)
    (s : List ShareB) :
    ((extendShares codec s = .error .invalidSquareSize) ↔ ¬ ∃ m, s.length = 2 ^ m) ∧
    ((∃ m, s.length = 2 ^ m) →
      extendShares codec s = computeExtendedDataSquare codec s) := by
  constructor
  · constructor
    · intro h hm
      have hp : isPowerOfTwo s.length = true := (isPowerOfTwo_iff _).mpr hm
      rw [extendShares, if_pos hp] at h
      unfold computeExtendedDataSquare at h
      by_cases hsq : Nat.sqrt s.length * Nat.sqrt s.length = s.length
      · simp only [hsq, beq_self_eq_true, if_true] at h
        cases h
      · rw [if_neg (by simpa using hsq)] at h
        cases h
    · intro h
      have hp : isPowerOfTwo s.length ≠ true := fun hc => h ((isPowerOfTwo_iff _).mp hc)
      rw [extendShares, if_neg hp]
  · intro hm
    rw [extendShares, if_pos ((isPowerOfTwo_iff _).mpr hm)]

/-- Placeholder codec used in witnesses: parity shares equal the data
shares, so it doubles each row length as the code requires. -/
def idCodec : List ShareB → List ShareB := fun rows => rows

/-- Square root of four, through the perfect-square law. -/
theorem sqrt_four : Nat.sqrt 4 = 2 := by
  simpa using Nat.sqrt_eq 2

/-- Four is a power of two for the modelled predicate. -/
theorem isPowerOfTwo_four : isPowerOfTwo 4 = true := (isPowerOfTwo_iff 4).mpr ⟨2, rfl⟩

/-- Concrete evaluation of extendShares on a four-share list with the
placeholder codec. -/
theorem extendShares_four_eval :
    extendShares idCodec [[1], [2], [3], [4]]
      = .ok ⟨[[[1], [2], [1], [2]], [[3], [4], [3], [4]],
              [[1], [2], [1], [2]], [[3], [4], [3], [4]]]⟩ := by
  rw [extendShares, if_pos (show isPowerOfTwo ([[1], [2], [3], [4]] : List ShareB).length
      = true from isPowerOfTwo_four)]
  simp only [computeExtendedDataSquare]
  rw [show Nat.sqrt ([[1], [2], [3], [4]] : List ShareB).length = 2 from sqrt_four]
  rfl

/-- Witness for C6: on the four-share square, the cell at quadrant
coordinates (1, 0) is the third original share. -/
theorem extendShares_systematic_witness :
    extendShares idCodec [[1], [2], [3], [4]]
      = .ok ⟨[[[1], [2], [1], [2]], [[3], [4], [3], [4]],
              [[1], [2], [1], [2]], [[3], [4], [3], [4]]]⟩ ∧
    1 < Nat.sqrt ([[1], [2], [3], [4]] : List ShareB).length ∧
    (⟨[[[1], [2], [1], [2]], [[3], [4], [3], [4]],
       [[1], [2], [1], [2]], [[3], [4], [3], [4]]]⟩ : EDS).getCell 1 0 = .ok [3] := by
  have hs : Nat.sqrt ([[1], [2], [3], [4]] : List ShareB).length = 2 := sqrt_four
  have h1 : 1 < Nat.sqrt ([[1], [2], [3], [4]] : List ShareB).length := by
    rw [hs]; norm_num
  have h0 : 0 < Nat.sqrt ([[1], [2], [3], [4]] : List ShareB).length := by
    rw [hs]; norm_num
  have h := extendShares_systematic idCodec [[1], [2], [3], [4]] _
    extendShares_four_eval 1 0 h1 h0
  rw [hs] at h
  exact ⟨extendShares_four_eval, h1, h⟩

/-- Witness for C3: on the four-share square the width is four, access at
row four is OutOfRange, and access at (3, 3) yields a share. -/
theorem extendShares_getCell_bounds_witness :
    (∀ row, (idCodec row).length = row.length) ∧
    extendShares idCodec [[1], [2], [3], [4]]
      = .ok ⟨[[[1], [2], [1], [2]], [[3], [4], [3], [4]],
              [[1], [2], [1], [2]], [[3], [4], [3], [4]]]⟩ ∧
    (⟨[[[1], [2], [1], [2]], [[3], [4], [3], [4]],
       [[1], [2], [1], [2]], [[3], [4], [3], [4]]]⟩ : EDS).width
      = 2 * Nat.sqrt ([[1], [2], [3], [4]] : List ShareB).length ∧
    (⟨[[[1], [2], [1], [2]], [[3], [4], [3], [4]],
       [[1], [2], [1], [2]], [[3], [4], [3], [4]]]⟩ : EDS).getCell 4 0
      = .error .outOfRange ∧
    ∃ sh, (⟨[[[1], [2], [1], [2]], [[3], [4], [3], [4]],
             [[1], [2], [1], [2]], [[3], [4], [3], [4]]]⟩ : EDS).getCell 3 3 = .ok sh := by
  have hs : Nat.sqrt ([[1], [2], [3], [4]] : List ShareB).length = 2 := sqrt_four
  obtain ⟨hw, hoob, hin⟩ := extendShares_getCell_bounds idCodec [[1], [2], [3], [4]] _
    (fun _ => rfl) extendShares_four_eval
  refine ⟨fun _ => rfl, extendShares_four_eval, hw, ?_, ?_⟩
  · exact hoob 4 0 (Or.inl (by rw [hs]))
  · exact hin 3 3 (by rw [hs]; norm_num) (by rw [hs]; norm_num)

/-- Witness for C5: a two-share list has power-of-two length, so the call
proceeds into the external square computation. -/
theorem extendShares_invalidSquareSize_iff_witness :
    (∃ m, ([[1], [2]] : List ShareB).length = 2 ^ m) ∧
    extendShares idCodec [[1], [2]] = computeExtendedDataSquare idCodec [[1], [2]] :=
  ⟨⟨1, rfl⟩, (extendShares_invalidSquareSize_iff idCodec [[1], [2]]).2 ⟨1, rfl⟩⟩

instance {ε α : Type} [DecidableEq ε] [DecidableEq α] : DecidableEq (Except ε α) := fun a b =>
  match a, b with
  | .ok x, .ok y => if h : x = y then isTrue (by rw [h]) else isFalse (by simp [h])
  | .error x, .error y => if h : x = y then isTrue (by rw [h]) else isFalse (by simp [h])
  | .ok _, .error _ => isFalse (by simp)
  | .error _, .ok _ => isFalse (by simp)

/-- Modelled from the spec: app.IsEmptyBlockRef — "the protocol's
empty-block predicate, itself parameterized by the block's declared
protocol version" (section 4.2): a block with zero transactions. -/
def isEmptyBlockRef (d : BlockData) (appVersion : Nat) : Bool :=
  d.txs.isEmpty

/-- Modelled from the spec: appconsts.SquareSizeUpperBound, a per-version
protocol constant bounding the square side length. -/
def squareSizeUpperBound (_ : Nat) : Nat := 128

/-- Modelled from the spec: appconsts.SubtreeRootThreshold, the
per-version packing policy constant. -/
def subtreeRootThreshold (_ : Nat) : Nat := 64

/-- Modelled from the spec: the protocol-fixed tail-padding share that
fills the empty data square. -/
def tailPaddingShare : ShareB := List.replicate 512 0

/-- Modelled from the spec: share.EmptyEDS of celestia-node — the
canonical empty-square value (the "canonical empty-square marker" of
section 4.2), namely the single tail-padding share extended to a 2 by 2
square.  It is a concrete square value, not an absent pointer. -/
def emptyEDS : EDS := ⟨extendSquare idCodec 1 (chunkSquare 1 [tailPaddingShare])⟩

/-- Row and column Merkle roots of an extended square (section 3). -/
structure DAH where
  rowRoots : List Bytes
  colRoots : List Bytes
  deriving DecidableEq, Repr

/-- Modelled from the spec: da.MinDataAvailabilityHeader — "a fixed
minimal header (no tree construction) — all-zero or protocol-defined
default roots of a fixed, documented size" (section 4.4). -/
def minDAH : DAH :=
  ⟨[List.replicate 32 0, List.replicate 32 0],
   [List.replicate 32 0, List.replicate 32 0]⟩

/-- ExtendedHeader from src/cmd/celestia/main.go. -/
structure ExtendedHeader where
  header : Header
  commit : Commit
  validatorSet : ValSet
  dah : DAH
  deriving DecidableEq, Repr

/-- extendBlock from src/cmd/celestia/main.go.  On the empty-block
predicate it returns share.EmptyEDS() — the non-nil empty square — even
though its own doc comment says nil is returned in place of the eds.
Otherwise it constructs the data square from the transactions
(libsquare.Construct, external, passed as the construct parameter) and
extends it.  The optional result mirrors the Go pointer that
makeExtendedHeader later compares against nil. -/
def extendBlock (construct : List Bytes → Nat → Nat → Except Err (List ShareB))
    (codec : List ShareB → List ShareB) (d : BlockData) (appVersion : Nat) :
    Except Err (Option EDS) :=
  if isEmptyBlockRef d appVersion then .ok (some emptyEDS)
  else
    match construct d.txs (squareSizeUpperBound appVersion) (subtreeRootThreshold appVersion) with
    | .error e => .error e
    | .ok sq =>
      match extendShares codec sq with
      | .error e => .error e
      | .ok eds => .ok (some eds)

/-- makeExtendedHeader from src/cmd/celestia/main.go: a nil square yields
the fixed minimal header; otherwise the availability header is built from
the square by the external row/column Merkle root builder
(da.NewDataAvailabilityHeader, passed as the dahBuilder parameter). -/
def makeExtendedHeader (dahBuilder : EDS → Except Err DAH) (h : Header)
    (comm : Commit) (vals : ValSet) (eds : Option EDS) : Except Err ExtendedHeader :=
  match eds with
  | none => .ok ⟨h, comm, vals, minDAH⟩
  | some e =>
    match dahBuilder e with
    | .error err => .error err
    | .ok dah => .ok ⟨h, comm, vals, dah⟩

/-- Square constructor used in witnesses: always succeeds with a single
share. -/
def okConstruct : List Bytes → Nat → Nat → Except Err (List ShareB) :=
  fun _ _ _ => .ok [[0]]

/-- Root builder used in the code-bug evaluation: returns empty root
lists, distinct from the minimal header. -/
def zeroDahBuilder : EDS → Except Err DAH := fun _ => .ok ⟨[], []⟩

/-- Second root builder used in the code-bug evaluation, distinct from
the first. -/
def oneDahBuilder : EDS → Except Err DAH := fun _ => .ok ⟨[[1]], [[1]]⟩

/-- Claim C2 (code-bug evidence).  For an empty block the pipeline does
not take the minimal-header shortcut: extendBlock returns the non-nil
empty square (contradicting its own doc comment, which promises nil), so
makeExtendedHeader takes the non-nil branch and invokes the external
Merkle root builder on it — the result depends on that builder and, for a
builder whose roots differ from the minimal ones, is not the minimal
header.  Under the claim, the result would be the minimal header
independently of the tree builder. -/
theorem emptyBlock_pipeline_buildsTrees :
    isEmptyBlockRef ⟨[]⟩ 3 = true ∧
    extendBlock okConstruct idCodec ⟨[]⟩ 3 = .ok (some emptyEDS) ∧
    makeExtendedHeader zeroDahBuilder ⟨3⟩ 0 0 (some emptyEDS) ≠ .ok ⟨⟨3⟩, 0, 0, minDAH⟩ ∧
    makeExtendedHeader zeroDahBuilder ⟨3⟩ 0 0 (some emptyEDS)
      ≠ makeExtendedHeader oneDahBuilder ⟨3⟩ 0 0 (some emptyEDS) := by
  refine ⟨rfl, rfl, ?_, ?_⟩
  · simp [makeExtendedHeader, zeroDahBuilder, minDAH]
  · simp [makeExtendedHeader, zeroDahBuilder, oneDahBuilder]

/-- Claim C7.  extendShares and makeExtendedHeader are pure functions of
their arguments (the source functions read no mutable or global state),
so equal inputs give bit-identical outputs. -/
theorem extendShares_makeExtendedHeader_deterministic :
    (∀ (codec : List ShareB → List ShareB) (s1 s2 : List ShareB), s1 = s2 →
      extendShares codec s1 = extendShares codec s2) ∧
    (∀ (b : EDS → Except Err DAH) (h1 h2 : Header) (c1 c2 : Commit) (v1 v2 : ValSet)
      (e1 e2 : Option EDS), h1 = h2 → c1 = c2 → v1 = v2 → e1 = e2 →
      makeExtendedHeader b h1 c1 v1 e1 = makeExtendedHeader b h2 c2 v2 e2) := by
  constructor
  · intro codec s1 s2 h
    rw [h]
  · intro b h1 h2 c1 c2 v1 v2 e1 e2 hh hc hv he
    rw [hh, hc, hv, he]

/-- Witness for C7 at concrete equal inputs. -/
theorem extendShares_makeExtendedHeader_deterministic_witness :
    extendShares idCodec [[1], [2], [3], [4]] = extendShares idCodec [[1], [2], [3], [4]] ∧
    makeExtendedHeader zeroDahBuilder ⟨3⟩ 0 0 (some emptyEDS)
      = makeExtendedHeader zeroDahBuilder ⟨3⟩ 0 0 (some emptyEDS) :=
  ⟨extendShares_makeExtendedHeader_deterministic.1 idCodec [[1], [2], [3], [4]]
      [[1], [2], [3], [4]] rfl,
    extendShares_makeExtendedHeader_deterministic.2 zeroDahBuilder ⟨3⟩ ⟨3⟩ 0 0 0 0
      (some emptyEDS) (some emptyEDS) rfl rfl rfl rfl⟩

/-- One line printed by main on standard output. -/
inductive Out where
  | line (s : String)
  | errLine (e : Err)
  | blockLine (b : SignedBlock)
  | ehLine (eh : ExtendedHeader)
  | cellLine (c : Except Err ShareB)
  deriving DecidableEq

/-- The external calls main depends on: dialing (grpc.NewClient inside
NewCoreAccessor), height and index parsing (strconv.Atoi), the streaming
RPC (BlockByHeight), the tendermint decoders, and the square-construction
collaborators. -/
structure ExtCalls where
  dial : String → Except Err Unit
  atoi : String → Except Err Int
  blockByHeight : Int → Except Err (List Resp)
  decodeCommit : CommitPB → Except Err Commit
  decodeValset : ValSetPB → Except Err ValSet
  decodeBlock : Bytes → Except Err Block
  construct : List Bytes → Nat → Nat → Except Err (List ShareB)
  codec : List ShareB → List ShareB
  dahBuilder : EDS → Except Err DAH

/-- getSignedBlock from src/cmd/celestia/main.go: parse the height, open
the stream, receive the block. -/
def getSignedBlock (E : ExtCalls) (hstr : String) : Except Err SignedBlock :=
  match E.atoi hstr with
  | .error e => .error e
  | .ok h =>
    match E.blockByHeight h with
    | .error e => .error e
    | .ok stream => (receiveBlockByHeight E.decodeCommit E.decodeValset E.decodeBlock stream).1

/-- The Go conversion uint(r) applied to a parsed signed integer in the
share command (64-bit wrap-around). -/
def uintOf (i : Int) : Nat := (i % (2 ^ 64 : Int)).toNat

/-- func main of src/cmd/celestia/main.go applied to the argument vector
os.Args(1:).  The value none models a runtime panic (indexing the
argument slice beyond its end, or dereferencing an absent square); a
value some (c, out) models termination through os.Exit c after printing
the lines out in order. -/
def mainModel (E : ExtCalls) (argv : List String) : Option (Nat × List Out) :=
  match argv with
  | [] => some (0, [])
  | addr :: _ =>
    match E.dial addr with
    | .error e => some (1, [.errLine e])
    | .ok _ =>
      match argv[1]? with
      | none => none
      | some cmd =>
        if cmd = "eds" then
          match argv[2]? with
          | none => none
          | some hstr =>
            match getSignedBlock E hstr with
            | .error e => some (1, [.line "eds", .errLine e])
            | .ok block =>
              match extendBlock E.construct E.codec block.data block.header.versionApp with
              | .error e => some (1, [.line "eds", .errLine e])
              | .ok eds =>
                match makeExtendedHeader E.dahBuilder block.header block.commit
                    block.validatorSet eds with
                | .error e => some (1, [.line "eds", .errLine e])
                | .ok eh => some (0, [.line "eds", .ehLine eh])
        else if cmd = "share" then
          match argv[2]? with
          | none => none
          | some hstr =>
            match getSignedBlock E hstr with
            | .error e => some (1, [.line "share", .errLine e])
            | .ok block =>
              match extendBlock E.construct E.codec block.data block.header.versionApp with
              | .error e => some (1, [.line "share", .errLine e])
              | .ok eds =>
                match argv[3]? with
                | none => none
                | some rstr =>
                  match E.atoi rstr with
                  | .error e => some (1, [.line "share", .errLine e])
                  | .ok r =>
                    match argv[4]? with
                    | none => none
                    | some cstr =>
                      match E.atoi cstr with
                      | .error e => some (1, [.line "share", .errLine e])
                      | .ok c =>
                        match eds with
                        | none => none
                        | some sq =>
                          some (0, [.line "share",
                            .cellLine (sq.getCell (uintOf r) (uintOf c))])
        else if cmd = "blob" then some (0, [.line "blob"])
        else if cmd = "block" then
          match argv[2]? with
          | none => none
          | some hstr =>
            match getSignedBlock E hstr with
            | .error e => some (1, [.line "block", .errLine e])
            | .ok block => some (0, [.line "block", .blockLine block])
        else some (0, [])

/-- Environment whose external calls all succeed, used for concrete
evaluations. -/
def okEnv : ExtCalls :=
  ⟨fun _ => .ok (), fun _ => .ok 0, fun _ => .ok [⟨7, 9, ⟨0, [1]⟩, true⟩],
   okCommitDecoder, okValsetDecoder, recordingBlockDecoder, okConstruct,
   idCodec, zeroDahBuilder⟩

/-- Environment whose dial fails, all else as in okEnv. -/
def dialFailEnv : ExtCalls :=
  ⟨fun _ => .error .connectionError, fun _ => .ok 0,
   fun _ => .ok [⟨7, 9, ⟨0, [1]⟩, true⟩],
   okCommitDecoder, okValsetDecoder, recordingBlockDecoder, okConstruct,
   idCodec, zeroDahBuilder⟩

/-- Counterexample to claim C9 as stated: the invocation with exactly two
arguments and the eds command (node address plus command, no height) does
not exit with status 0 or 1 — main evaluates args(2) while the argument
slice has two entries and panics, although every external call in this
environment succeeds.  The claim requires some exit status for every
invocation with at least two arguments. -/
theorem mainTwoArgs_eds_panics : mainModel okEnv ["addr", "eds"] = none := rfl

/-- Claim C9 as amended.  For invocations that supply the arguments their
command consumes, main prints the error and exits 1 whenever a stage
returns one — dialing, height parsing and reassembly (getSignedBlock),
extension, header construction, and row or column index parsing in the
share command — and exits 0 when the stages it runs succeed or the
command is unrecognized (blob included); with at least two arguments but
no height argument, the height-taking commands panic instead of
exiting. -/
theorem mainModel_exitBehavior (E : ExtCalls) :
    (∀ addr args e, E.dial addr = .error e →
      mainModel E (addr :: args) = some (1, [.errLine e])) ∧
    (∀ addr rest cmd, E.dial addr = .ok () → cmd ≠ "eds" → cmd ≠ "share" →
      cmd ≠ "blob" → cmd ≠ "block" →
      mainModel E (addr :: cmd :: rest) = some (0, [])) ∧
    (∀ addr rest, E.dial addr = .ok () →
      mainModel E (addr :: "blob" :: rest) = some (0, [.line "blob"])) ∧
    (∀ addr hstr rest e, E.dial addr = .ok () → getSignedBlock E hstr = .error e →
      mainModel E (addr :: "eds" :: hstr :: rest) = some (1, [.line "eds", .errLine e])) ∧
    (∀ addr hstr rest b e, E.dial addr = .ok () → getSignedBlock E hstr = .ok b →
      extendBlock E.construct E.codec b.data b.header.versionApp = .error e →
      mainModel E (addr :: "eds" :: hstr :: rest) = some (1, [.line "eds", .errLine e])) ∧
    (∀ addr hstr rest b eds e, E.dial addr = .ok () → getSignedBlock E hstr = .ok b →
      extendBlock E.construct E.codec b.data b.header.versionApp = .ok eds →
      makeExtendedHeader E.dahBuilder b.header b.commit b.validatorSet eds = .error e →
      mainModel E (addr :: "eds" :: hstr :: rest) = some (1, [.line "eds", .errLine e])) ∧
    (∀ addr hstr rest b eds eh, E.dial addr = .ok () → getSignedBlock E hstr = .ok b →
      extendBlock E.construct E.codec b.data b.header.versionApp = .ok eds →
      makeExtendedHeader E.dahBuilder b.header b.commit b.validatorSet eds = .ok eh →
      mainModel E (addr :: "eds" :: hstr :: rest) = some (0, [.line "eds", .ehLine eh])) ∧
    (∀ addr hstr rest e, E.dial addr = .ok () → getSignedBlock E hstr = .error e →
      mainModel E (addr :: "block" :: hstr :: rest)
        = some (1, [.line "block", .errLine e])) ∧
    (∀ addr hstr rest b, E.dial addr = .ok () → getSignedBlock E hstr = .ok b →
      mainModel E (addr :: "block" :: hstr :: rest)
        = some (0, [.line "block", .blockLine b])) ∧
    (∀ addr hstr rstr cstr rest e, E.dial addr = .ok () →
      getSignedBlock E hstr = .error e →
      mainModel E (addr :: "share" :: hstr :: rstr :: cstr :: rest)
        = some (1, [.line "share", .errLine e])) ∧
    (∀ addr hstr rest b e, E.dial addr = .ok () → getSignedBlock E hstr = .ok b →
      extendBlock E.construct E.codec b.data b.header.versionApp = .error e →
      mainModel E (addr :: "share" :: hstr :: rest)
        = some (1, [.line "share", .errLine e])) ∧
    (∀ addr hstr rstr rest b eds e, E.dial addr = .ok () →
      getSignedBlock E hstr = .ok b →
      extendBlock E.construct E.codec b.data b.header.versionApp = .ok eds →
      E.atoi rstr = .error e →
      mainModel E (addr :: "share" :: hstr :: rstr :: rest)
        = some (1, [.line "share", .errLine e])) ∧
    (∀ addr hstr rstr cstr rest b eds r e, E.dial addr = .ok () →
      getSignedBlock E hstr = .ok b →
      extendBlock E.construct E.codec b.data b.header.versionApp = .ok eds →
      E.atoi rstr = .ok r → E.atoi cstr = .error e →
      mainModel E (addr :: "share" :: hstr :: rstr :: cstr :: rest)
        = some (1, [.line "share", .errLine e])) ∧
    (∀ addr hstr rstr cstr rest b sq r c, E.dial addr = .ok () →
      getSignedBlock E hstr = .ok b →
      extendBlock E.construct E.codec b.data b.header.versionApp = .ok (some sq) →
      E.atoi rstr = .ok r → E.atoi cstr = .ok c →
      mainModel E (addr :: "share" :: hstr :: rstr :: cstr :: rest)
        = some (0, [.line "share", .cellLine (sq.getCell (uintOf r) (uintOf c))])) ∧
    (∀ addr, E.dial addr = .ok () →
      mainModel E [addr, "eds"] = none ∧ mainModel E [addr, "share"] = none ∧
      mainModel E [addr, "block"] = none) := by
  refine ⟨?_, ?_, ?_, ?_, ?_, ?_, ?_, ?_, ?_, ?_, ?_, ?_, ?_, ?_, ?_⟩
  · intro addr args e hd
    simp [mainModel, hd]
  · intro addr rest cmd hd h1 h2 h3 h4
    simp [mainModel, hd, h1, h2, h3, h4]
  · intro addr rest hd
    simp [mainModel, hd]
  · intro addr hstr rest e hd hgs
    simp [mainModel, hd, hgs]
  · intro addr hstr rest b e hd hgs hex
    simp [mainModel, hd, hgs, hex]
  · intro addr hstr rest b eds e hd hgs hex hmk
    simp [mainModel, hd, hgs, hex, hmk]
  · intro addr hstr rest b eds eh hd hgs hex hmk
    simp [mainModel, hd, hgs, hex, hmk]
  · intro addr hstr rest e hd hgs
    simp [mainModel, hd, hgs]
  · intro addr hstr rest b hd hgs
    simp [mainModel, hd, hgs]
  · intro addr hstr rstr cstr rest e hd hgs
    simp [mainModel, hd, hgs]
  · intro addr hstr rest b e hd hgs hex
    simp [mainModel, hd, hgs, hex]
  · intro addr hstr rstr rest b eds e hd hgs hex hr
    simp [mainModel, hd, hgs, hex, hr]
  · intro addr hstr rstr cstr rest b eds r e hd hgs hex hr hc
    simp [mainModel, hd, hgs, hex, hr, hc]
  · intro addr hstr rstr cstr rest b sq r c hd hgs hex hr hc
    simp [mainModel, hd, hgs, hex, hr, hc]
  · intro addr hd
    refine ⟨?_, ?_, ?_⟩ <;> simp [mainModel, hd]

/-- Witness for the amended C9: with the all-succeeding environment the
blob command exits 0, and with a failing dial any invocation exits 1
printing the connection error. -/
theorem mainModel_exitBehavior_witness :
    okEnv.dial "addr" = .ok () ∧
    mainModel okEnv ["addr", "blob"] = some (0, [.line "blob"]) ∧
    dialFailEnv.dial "addr" = .error .connectionError ∧
    mainModel dialFailEnv ["addr", "eds", "5"] = some (1, [.errLine .connectionError]) :=
  ⟨rfl, (mainModel_exitBehavior okEnv).2.2.1 "addr" [] rfl, rfl,
    (mainModel_exitBehavior dialFailEnv).1 "addr" ["eds", "5"] .connectionError rfl⟩

/-- Claim C10.  An invocation supplying exactly one argument (a node
address but no command) dials and then panics indexing args(1): with a
successful dial the model yields no exit status (a panic), while with a
failing dial — showing the dial precedes the faulting index — it still
exits 1. -/
theorem singleArgument_panicsAfterDial :
    mainModel okEnv ["addr"] = none ∧
    mainModel dialFailEnv ["addr"] = some (1, [.errLine .connectionError]) :=
  ⟨rfl, rfl⟩
